import Mathlib

/-!
Verification development for the label-reconciliation engine of the
BlueBrain/atlas-annotation repository.

The Lean definitions below are a shallow embedding of the Python sources:

* `src/atlannot/region_meta.py`       — the `RegionMeta` hierarchy class;
* `src/atlannot/atlas_merge/common.py` — `replace`, `atlas_remap`, `descendants`;
* `src/atlannot/merge/coarse.py`      — the coarse set-level reconciliation
  (`manual_relabel`, the four rule loops and the `while_correct` closure);
* `src/atlannot/merge/fine.py`        — `explore_voxel` and `correct_edge`.

Modelling conventions:

* Python `int` region ids become `Nat` (the ids are non-negative).
* Python dicts (`parent_id`, `children_ids`, `name_`, `level`) become
  association lists `List (Nat × _)`; a raising dict access `d[k]` becomes an
  `Option`-valued lookup where `none` models the `KeyError`.
* Python `set`s of ids are carried as lists; only membership matters, and the
  canonical construction `npUnique` (sorted deduplication) models both
  `np.unique` and iteration over a Python set.  Python iterates sets in an
  unspecified order, so every loop that iterates over a set takes the
  iteration order as an explicit list parameter.
* Unbounded `while` loops and recursion over the hierarchy take an explicit
  fuel argument; exhausted fuel (`none`) models non-termination.  The fuel
  `rmFuel rm = depth rm + 1` is enough for every parent-chain walk in a
  well-formed hierarchy.
* `numpy` arrays become a `shape`/`data`/`dtype` record; `dtype` is an opaque
  tag (`Nat`) because only its propagation matters.  Fancy indexing
  `values_to[idx]` produces an array of `values_to`'s dtype, and
  `np.searchsorted` on a sorted array is the lower-bound insertion point,
  i.e. the number of elements strictly below the probe.
-/

namespace Atlannot

/-! ## Small list helpers -/

/-- Does `p` occur as a leading run of `l`?  Helper for substring search. -/
def listLeads : List Char → List Char → Bool
  | [], _ => true
  | _ :: _, [] => false
  | a :: as, b :: bs => a = b && listLeads as bs

/-- Does `p` occur contiguously somewhere inside `l`? -/
def listHasSub (p : List Char) : List Char → Bool
  | [] => listLeads p []
  | b :: bs => listLeads p (b :: bs) || listHasSub p bs

/-- Substring test on strings.  `re.search(pattern, s)` of the Python code is
modelled as a substring test: every pattern the merge pipeline passes to
`in_region_like` is a regex literal (no metacharacters), for which
`re.search` is exactly substring containment (the docstring of
`RegionMeta.in_region_like` says as much). -/
def containsSub (s pat : String) : Bool :=
  listHasSub pat.data s.data

/-- Keys of an association list. -/
def keysOf {α : Type} (l : List (Nat × α)) : List Nat :=
  l.map Prod.fst

/-- Sorted deduplication; models `np.unique` on the flattened data and also
the contents of `set(xs)` (membership-wise). -/
def npUnique (l : List Nat) : List Nat :=
  l.dedup.insertionSort (· ≤ ·)

theorem mem_npUnique {l : List Nat} {x : Nat} : x ∈ npUnique l ↔ x ∈ l := by
  unfold npUnique
  rw [(List.perm_insertionSort (· ≤ ·) l.dedup).mem_iff]
  exact List.mem_dedup

theorem npUnique_sorted (l : List Nat) : (npUnique l).Sorted (· < ·) := by
  have hs : (npUnique l).Sorted (· ≤ ·) := List.sorted_insertionSort _ _
  have hn : (npUnique l).Nodup :=
    (List.perm_insertionSort (· ≤ ·) l.dedup).nodup_iff.mpr l.nodup_dedup
  have := List.Pairwise.and hs hn
  exact this.imp (fun h => lt_of_le_of_ne h.1 h.2)

/-- Effectful map over a list in the `Option` monad (a failing element makes
the whole traversal fail), used to model Python loops whose body may raise. -/
def optMap {α β : Type} (f : α → Option β) : List α → Option (List β)
  | [] => some []
  | x :: xs => do
    let y ← f x
    let ys ← optMap f xs
    pure (y :: ys)

/-! ## numpy arrays, `replace` and `atlas_remap`
(`src/atlannot/atlas_merge/common.py`) -/

/-- A dense numpy array of region ids: shape, flattened data, dtype tag. -/
structure NpArray where
  shape : List Nat
  data : List Nat
  dtype : Nat
  deriving DecidableEq

/-- Model of `np.unique(a)` as a 1-d array: sorted unique values, same dtype. -/
def np_unique (a : NpArray) : NpArray :=
  { shape := [(npUnique a.data).length], data := npUnique a.data,
    dtype := a.dtype }

/-- Model of `replace(array, old_value, new_value)`: `array[array == old] = new`,
on the flattened data of a 1-d id array. -/
def replace (array : List Nat) (old_value new_value : Nat) : List Nat :=
  array.map (fun x => if x = old_value then new_value else x)

theorem replace_of_not_mem {l : List Nat} {o n : Nat} (h : o ∉ l) :
    replace l o n = l := by
  induction l with
  | nil => rfl
  | cons a t ih =>
    simp only [List.mem_cons, not_or] at h
    simp [replace] at ih ⊢
    exact ⟨fun hao => absurd hao.symm h.1, ih h.2⟩

/-- Model of `np.searchsorted(a, v)` (side `left`) for a sorted array `a`: the
lower-bound insertion index, i.e. the number of entries strictly below `v`. -/
def searchsorted (a : List Nat) (v : Nat) : Nat :=
  a.countP (fun x => decide (x < v))

/-- Model of `atlas_remap(atlas, values_from, values_to)`:
`values_to[np.searchsorted(values_from, atlas.ravel())].reshape(atlas.shape)`.
The result of fancy indexing carries `values_to`'s dtype; `reshape` restores
the input's shape.  (The out-of-range index that `np.searchsorted` can return
for a probe above every entry of `values_from` cannot occur under the
documented precondition `values_from = np.unique(atlas)`; the `getD` default
is never used there.) -/
def atlas_remap (atlas values_from values_to : NpArray) : NpArray :=
  { shape := atlas.shape,
    data := atlas.data.map
      (fun v => values_to.data.getD (searchsorted values_from.data v) 0),
    dtype := values_to.dtype }

theorem getD_searchsorted {u : List Nat} (hs : u.Sorted (· < ·)) {v : Nat}
    (hv : v ∈ u) : u.getD (searchsorted u v) 0 = v := by
  induction u with
  | nil => cases hv
  | cons a t ih =>
    have hst : t.Sorted (· < ·) := hs.of_cons
    rcases List.mem_cons.mp hv with rfl | hvt
    · have hz : t.countP (fun x => decide (x < v)) = 0 := by
        rw [List.countP_eq_zero]
        intro x hx
        have : v < x := List.rel_of_sorted_cons hs x hx
        simpa using Nat.not_lt_of_lt this
      simp [searchsorted, List.countP_cons, hz]
    · have hav : a < v := List.rel_of_sorted_cons hs v hvt
      have : searchsorted (a :: t) v = searchsorted t v + 1 := by
        simp [searchsorted, List.countP_cons, hav]
      rw [this]
      simpa using ih hst hvt

/-- C6: remapping a volume with `from_ids = to_ids = sorted(unique(volume))`
returns the volume unchanged (identity law of the atlas remapper). -/
theorem atlas_remap_identity (volume : NpArray) :
    atlas_remap volume (np_unique volume) (np_unique volume) = volume := by
  obtain ⟨shape, data, dtype⟩ := volume
  unfold atlas_remap np_unique
  simp only [NpArray.mk.injEq, true_and]
  refine ⟨?_, trivial⟩
  have h : ∀ v ∈ data,
      (npUnique data).getD (searchsorted (npUnique data) v) 0 = id v :=
    fun v hv => getD_searchsorted (npUnique_sorted data) (mem_npUnique.mpr hv)
  exact (List.map_congr_left h).trans (List.map_id data)

/-- C7 counterexample: a remap table that satisfies the documented
precondition (`values_from = np.unique(atlas)`, `values_to` of the same
length) but whose `to_ids` carry a different dtype tag than the input; the
output dtype is the dtype of `to_ids`, not of the input volume. -/
theorem atlas_remap_dtype_counterexample :
    (let atlas : NpArray := { shape := [1], data := [5], dtype := 0 }
     let vfrom : NpArray := { shape := [1], data := [5], dtype := 0 }
     let vto : NpArray := { shape := [1], data := [7], dtype := 1 }
     vfrom = np_unique atlas ∧ vto.data.length = vfrom.data.length ∧
       (atlas_remap atlas vfrom vto).dtype ≠ atlas.dtype) := by
  refine ⟨by decide, by decide, by decide⟩

/-- C7 (amended): under the precondition, the output of `atlas_remap` always
has the input's shape, and its dtype is the dtype of `values_to`; in
particular it equals the input's dtype exactly when `values_to` shares the
input's dtype (as the tables built by the merge pipeline do, being copies of
`np.unique(volume)`). -/
theorem atlas_remap_shape_dtype (atlas values_from values_to : NpArray)
    (_hfrom : values_from = np_unique atlas)
    (_hlen : values_to.data.length = values_from.data.length) :
    (atlas_remap atlas values_from values_to).shape = atlas.shape ∧
      (atlas_remap atlas values_from values_to).dtype = values_to.dtype ∧
      (values_to.dtype = atlas.dtype →
        (atlas_remap atlas values_from values_to).dtype = atlas.dtype) := by
  exact ⟨rfl, rfl, fun h => h⟩

/-- C7 witness: the amended shape/dtype theorem applied to a concrete
volume and table. -/
theorem atlas_remap_shape_dtype_witness :
    (let atlas : NpArray := { shape := [3, 1], data := [5, 5, 9], dtype := 2 }
     let vfrom : NpArray := np_unique atlas
     let vto : NpArray := { shape := [2], data := [6, 10], dtype := 2 }
     (atlas_remap atlas vfrom vto).shape = atlas.shape ∧
       (atlas_remap atlas vfrom vto).dtype = vto.dtype ∧
       (vto.dtype = atlas.dtype →
         (atlas_remap atlas vfrom vto).dtype = atlas.dtype)) :=
  atlas_remap_shape_dtype _ _ _ (by decide) (by decide)

/-! ## The region hierarchy (`src/atlannot/region_meta.py`)

Only the fields that the reconciliation engine reads are modelled.  Each
Python dict attribute becomes an association list keyed by region id. -/

structure RegionMeta where
  background_id : Nat
  parent_id : List (Nat × Option Nat)
  children_ids : List (Nat × List Nat)
  name_ : List (Nat × String)
  level : List (Nat × Nat)

namespace RegionMeta

/-- Model of `is_valid_id`: `id_ in self.parent_id`. -/
def is_valid_id (rm : RegionMeta) (id_ : Nat) : Bool :=
  (rm.parent_id.lookup id_).isSome

/-- Model of `parent`: `self.parent_id.get(region_id)` — a missing key and a stored
`None` both give `None`. -/
def parent (rm : RegionMeta) (region_id : Nat) : Option Nat :=
  (rm.parent_id.lookup region_id).getD none

/-- Model of `is_leaf`: `len(self.children_ids[region_id]) == 0`.  The dict access
raises `KeyError` on an unknown id, modelled by `none`. -/
def is_leaf (rm : RegionMeta) (region_id : Nat) : Option Bool :=
  (rm.children_ids.lookup region_id).map List.isEmpty

/-- The children list of a region, defaulting to `[]` for unknown ids.  Used
only where the class invariant (every id that gets here is a key) holds, so
the default branch models no behaviour of its own. -/
def childrenD (rm : RegionMeta) (region_id : Nat) : List Nat :=
  (rm.children_ids.lookup region_id).getD []

/-- Total leaf test under the class invariant; agrees with `is_leaf` on
every valid id (`is_leaf_eq_leafb` below). -/
def leafb (rm : RegionMeta) (region_id : Nat) : Bool :=
  (childrenD rm region_id).isEmpty

/-- Model of `name`: returns `""` with a warning for unknown ids, else the stored
name. -/
def name (rm : RegionMeta) (id_ : Nat) : String :=
  if rm.is_valid_id id_ then (rm.name_.lookup id_).getD ("") else ""

/-- The stored level of a region (the background has level 0). -/
def levelD (rm : RegionMeta) (region_id : Nat) : Nat :=
  (rm.level.lookup region_id).getD 0

/-- Model of `depth`: `max(self.level.values())`. -/
def depth (rm : RegionMeta) : Nat :=
  (rm.level.map Prod.snd).foldr max 0

/-- Enough fuel for any parent-chain walk in a well-formed hierarchy: a
chain starting at level `L ≤ depth` visits `L + 1` nodes. -/
def rmFuel (rm : RegionMeta) : Nat :=
  rm.depth + 1

/-- The `while id_ is not None` walk inside `ancestors`: collect the node
and move to its parent.  Fuel exhaustion truncates the list; `rmFuel`
suffices on well-formed data. -/
def chainUp (rm : RegionMeta) : Nat → Nat → List Nat
  | 0, _ => []
  | fuel + 1, id_ =>
    id_ :: (match rm.parent id_ with
      | none => []
      | some p => chainUp rm fuel p)

/-- Model of `ancestors(ids)` with the default `include_background=False`: the union
of the upward chains of all ids, then `ancestors.remove(self.background_id)`
— which raises `KeyError` (modelled by `none`) when the background never
appeared, i.e. when no input id has a valid chain. -/
def ancestors (rm : RegionMeta) (ids : List Nat) : Option (List Nat) :=
  let anc := ((ids.map (chainUp rm (rmFuel rm))).flatten).dedup
  if rm.background_id ∈ anc then some (anc.filter (· ≠ rm.background_id))
  else none

/-- The ancestor-walk of `in_region_like` after the validity check:
`while region_id != self.background_id` test the name, then move to the
parent.  A broken chain (parent `None` before the background is reached)
makes the Python loop run forever on the `None` key without ever matching a
non-empty pattern; both that divergence and fuel exhaustion return `false`
here, which is only ever exercised on malformed hierarchies. -/
def inRegionWalk (rm : RegionMeta) (pat : String) : Nat → Nat → Bool
  | 0, _ => false
  | fuel + 1, region_id =>
    if region_id = rm.background_id then false
    else if containsSub (rm.name region_id) pat then true
    else
      match rm.parent region_id with
      | none => false
      | some p => inRegionWalk rm pat fuel p

/-- Model of `in_region_like(region_name_regex, region_id)`: `False` (plus a warning)
for unknown ids, otherwise the upward name search. -/
def in_region_like (rm : RegionMeta) (pat : String) (region_id : Nat) : Bool :=
  if rm.is_valid_id region_id then inRegionWalk rm pat (rmFuel rm) region_id
  else false

/-- Model of `iter_descendants(region_id)` of `RegionMeta.descendants`: the region
itself plus, for each child, the child and its own subtree (the generator
yields each child twice; the set union makes that harmless).  The
`children` dict access raises on an unknown id (`none`). -/
def descTree (rm : RegionMeta) : Nat → Nat → Option (List Nat)
  | 0, _ => none
  | fuel + 1, region_id => do
    let cs ← rm.children_ids.lookup region_id
    let subs ← optMap (fun c => (descTree rm fuel c).map (c :: ·)) cs
    pure (region_id :: subs.flatten)

/-- Model of `descendants(ids)` (the inclusive `RegionMeta` method, not the filtered
helper of the merge code): union of the subtrees of all input ids. -/
def descendants (rm : RegionMeta) (ids : List Nat) : Option (List Nat) := do
  let ls ← optMap (descTree rm (rmFuel rm)) ids
  pure ls.flatten.dedup

end RegionMeta

/-! ## Well-formedness of a hierarchy

Properties that `RegionMeta.from_dict` guarantees by construction for every
real ontology: all four dicts share the same key set, the background is a
key with no parent and level 0, every non-background key has a valid parent
one level down, children are valid keys one level up, and every level is
bounded by `depth`. -/

/-- Boolean check that a non-background node has a valid parent exactly one
level up. -/
def parentOkB (rm : RegionMeta) (id_ : Nat) : Bool :=
  match rm.parent id_ with
  | some p => rm.is_valid_id p && (rm.levelD id_ == rm.levelD p + 1)
  | none => false

def WF (rm : RegionMeta) : Prop :=
  (keysOf rm.parent_id).Nodup ∧
  keysOf rm.children_ids = keysOf rm.parent_id ∧
  keysOf rm.name_ = keysOf rm.parent_id ∧
  keysOf rm.level = keysOf rm.parent_id ∧
  rm.is_valid_id rm.background_id = true ∧
  rm.parent rm.background_id = none ∧
  rm.levelD rm.background_id = 0 ∧
  (∀ id_ ∈ keysOf rm.parent_id, id_ ≠ rm.background_id →
    parentOkB rm id_ = true) ∧
  (∀ id_ ∈ keysOf rm.parent_id, ∀ c ∈ rm.childrenD id_,
    rm.is_valid_id c = true ∧ rm.levelD c = rm.levelD id_ + 1) ∧
  (∀ id_ ∈ keysOf rm.level, rm.levelD id_ ≤ rm.depth)

theorem lookup_isSome_iff_mem_keys {α : Type} (l : List (Nat × α)) (k : Nat) :
    (l.lookup k).isSome = true ↔ k ∈ keysOf l := by
  induction l with
  | nil => simp [List.lookup, keysOf]
  | cons p t ih =>
    obtain ⟨a, b⟩ := p
    by_cases h : k = a
    · subst h
      simp [List.lookup, keysOf]
    · have hba : (k == a) = false := beq_false_of_ne h
      simp [List.lookup, hba, keysOf, h, ih]

theorem valid_iff_mem_keys (rm : RegionMeta) (k : Nat) :
    rm.is_valid_id k = true ↔ k ∈ keysOf rm.parent_id :=
  lookup_isSome_iff_mem_keys rm.parent_id k

theorem wf_level_le {rm : RegionMeta} (hwf : WF rm) {id_ : Nat}
    (hv : rm.is_valid_id id_ = true) : rm.levelD id_ ≤ rm.depth := by
  obtain ⟨-, -, -, hlk, -, -, -, -, -, hle⟩ := hwf
  exact hle id_ (by rw [hlk]; exact (valid_iff_mem_keys rm id_).mp hv)

theorem wf_parent_step {rm : RegionMeta} (hwf : WF rm) {id_ : Nat}
    (hv : rm.is_valid_id id_ = true) (hbg : id_ ≠ rm.background_id) :
    ∃ p, rm.parent id_ = some p ∧ rm.is_valid_id p = true ∧
      rm.levelD id_ = rm.levelD p + 1 := by
  obtain ⟨-, -, -, -, -, -, -, hpar, -, -⟩ := hwf
  have h := hpar id_ ((valid_iff_mem_keys rm id_).mp hv) hbg
  unfold parentOkB at h
  cases hp : rm.parent id_ with
  | none => rw [hp] at h; cases h
  | some p =>
    rw [hp] at h
    simp only [Bool.and_eq_true, beq_iff_eq] at h
    exact ⟨p, rfl, h.1, h.2⟩

/-- In a well-formed hierarchy the upward walk from a valid id reaches the
background node whenever the fuel exceeds the id's level. -/
theorem bg_mem_chainUp {rm : RegionMeta} (hwf : WF rm) :
    ∀ fuel id_, rm.is_valid_id id_ = true → rm.levelD id_ < fuel →
      rm.background_id ∈ RegionMeta.chainUp rm fuel id_ := by
  intro fuel
  induction fuel with
  | zero => intro id_ _ h; cases h
  | succ f ih =>
    intro id_ hv _
    by_cases hbg : id_ = rm.background_id
    · subst hbg
      simp [RegionMeta.chainUp]
    · obtain ⟨p, hp, hpv, hl⟩ := wf_parent_step hwf hv hbg
      have hlt : rm.levelD p < f := by
        by_cases hf : rm.levelD p < f
        · exact hf
        · exfalso
          have h1 : rm.levelD id_ < f + 1 := by assumption
          omega
      simp only [RegionMeta.chainUp, hp]
      exact List.mem_cons_of_mem _ (ih p hpv hlt)

theorem mem_chainUp_self (rm : RegionMeta) (fuel id_ : Nat) :
    id_ ∈ RegionMeta.chainUp rm (fuel + 1) id_ := by
  simp [RegionMeta.chainUp]

/-- The `ancestors` call succeeds and is inclusive on nonempty sets of valid,
non-background ids. -/
theorem ancestors_mem_of_valid {rm : RegionMeta} (hwf : WF rm)
    {X : List Nat} (hne : X ≠ [])
    (hX : ∀ x ∈ X, rm.is_valid_id x = true ∧ x ≠ rm.background_id) :
    ∃ A, RegionMeta.ancestors rm X = some A ∧ ∀ x ∈ X, x ∈ A := by
  obtain ⟨x0, X', rfl⟩ := List.exists_cons_of_ne_nil hne
  have hx0 := hX x0 (List.mem_cons_self x0 X')
  have hbgmem : rm.background_id ∈
      (((x0 :: X').map (RegionMeta.chainUp rm (RegionMeta.rmFuel rm))).flatten).dedup := by
    rw [List.mem_dedup]
    apply List.mem_flatten.mpr
    refine ⟨RegionMeta.chainUp rm (RegionMeta.rmFuel rm) x0, ?_, ?_⟩
    · exact List.mem_map_of_mem _ (List.mem_cons_self x0 X')
    · exact bg_mem_chainUp hwf _ x0 hx0.1
        (Nat.lt_succ_of_le (wf_level_le hwf hx0.1))
  refine ⟨((((x0 :: X').map (RegionMeta.chainUp rm (RegionMeta.rmFuel rm))).flatten).dedup).filter
      (· ≠ rm.background_id), ?_, ?_⟩
  · unfold RegionMeta.ancestors
    simp only [hbgmem, if_pos]
  · intro x hx
    rw [List.mem_filter]
    constructor
    · rw [List.mem_dedup]
      apply List.mem_flatten.mpr
      refine ⟨RegionMeta.chainUp rm (RegionMeta.rmFuel rm) x,
        List.mem_map_of_mem _ hx, ?_⟩
      exact mem_chainUp_self rm rm.depth x
    · simpa using (hX x hx).2

/-! ## A small concrete hierarchy

`rm2` is the four-node ontology
`background 0 → root 997 → leaves {2, 3}`, used for the concrete
counterexamples and witnesses below.  (997 is the real "root / whole brain"
id of the Allen ontology, one of the two sentinels of the while-loop.) -/

def rm2 : RegionMeta :=
  { background_id := 0,
    parent_id := [(0, none), (997, some 0), (2, some 997), (3, some 997)],
    children_ids := [(0, [997]), (997, [2, 3]), (2, []), (3, [])],
    name_ := [(0, "background"), (997, "root"), (2, "two"), (3, "three")],
    level := [(0, 0), (997, 1), (2, 2), (3, 2)] }

theorem wf_rm2 : WF rm2 := by
  refine ⟨?_, ?_, ?_, ?_, ?_, ?_, ?_, ?_, ?_, ?_⟩ <;> decide

theorem lookup_eq_none_of_invalid {rm : RegionMeta} (hwf : WF rm) {id_ : Nat}
    (hinv : rm.is_valid_id id_ = false) :
    rm.children_ids.lookup id_ = none := by
  obtain ⟨-, hck, -⟩ := hwf
  have hmem : id_ ∉ keysOf rm.parent_id := by
    intro hmem
    rw [← valid_iff_mem_keys] at hmem
    rw [hmem] at hinv
    cases hinv
  rw [← Option.not_isSome_iff_eq_none]
  intro hs
  exact hmem (hck ▸ (lookup_isSome_iff_mem_keys rm.children_ids id_).mp hs)

theorem descTree_leaf {rm : RegionMeta} {l : Nat}
    (h : rm.is_leaf l = some true) (f : Nat) :
    RegionMeta.descTree rm (f + 1) l = some [l] := by
  unfold RegionMeta.is_leaf at h
  cases hc : rm.children_ids.lookup l with
  | none => rw [hc] at h; cases h
  | some cs =>
    rw [hc] at h
    have hcs : cs = [] := by
      have h2 : cs.isEmpty = true := by simpa using h
      exact List.isEmpty_iff.mp h2
    subst hcs
    simp [RegionMeta.descTree, hc, optMap]

/-- C3 counterexample: for the unknown id `99` the hierarchy queries do NOT
return the neutral values the claim promises — `is_leaf` raises `KeyError`
(modelled `none`) instead of returning `false`, and `ancestors` raises
`KeyError` instead of yielding an empty result. -/
theorem unknown_id_is_leaf_raises :
    rm2.is_leaf 99 = none ∧ rm2.is_leaf 99 ≠ some false ∧
      RegionMeta.ancestors rm2 [99] = none := by
  refine ⟨by decide, by decide, by decide⟩

/-- C3 (amended): for an id that is not part of the ontology,
`in_region_like` returns `false` (with a warning) for every pattern, but
`is_leaf` raises `KeyError` rather than returning `false`, and `ancestors`
of that id alone raises `KeyError` (at the background removal) rather than
returning an empty set. -/
theorem unknown_id_query_behaviour (rm : RegionMeta) (hwf : WF rm)
    (id_ : Nat) (hinv : rm.is_valid_id id_ = false) :
    (∀ pat, rm.in_region_like pat id_ = false) ∧
      rm.is_leaf id_ = none ∧
      RegionMeta.ancestors rm [id_] = none := by
  refine ⟨?_, ?_, ?_⟩
  · intro pat
    unfold RegionMeta.in_region_like
    rw [hinv]
    rfl
  · unfold RegionMeta.is_leaf
    rw [lookup_eq_none_of_invalid hwf hinv]
    rfl
  · have hpar : rm.parent id_ = none := by
      unfold RegionMeta.is_valid_id at hinv
      unfold RegionMeta.parent
      cases hp : rm.parent_id.lookup id_ with
      | none => rfl
      | some v => rw [hp] at hinv; simp at hinv
    have hbgv := hwf.2.2.2.2.1
    have hne : id_ ≠ rm.background_id := by
      intro h
      rw [h, hbgv] at hinv
      cases hinv
    have hchain : RegionMeta.chainUp rm (RegionMeta.rmFuel rm) id_ = [id_] := by
      unfold RegionMeta.rmFuel
      simp [RegionMeta.chainUp, hpar]
    unfold RegionMeta.ancestors
    rw [List.map_singleton, hchain]
    have hnotmem : rm.background_id ∉ ([[id_]].flatten).dedup := by
      simp only [List.flatten, List.append_nil, List.mem_dedup,
        List.mem_singleton]
      exact fun h => hne h.symm
    rw [if_neg hnotmem]

/-- C3 witness: the amended behaviour evaluated on the concrete hierarchy
`rm2` at the unknown id `99`. -/
theorem unknown_id_query_behaviour_witness :
    (∀ pat, rm2.in_region_like pat 99 = false) ∧
      rm2.is_leaf 99 = none ∧ RegionMeta.ancestors rm2 [99] = none :=
  unknown_id_query_behaviour rm2 wf_rm2 99 (by decide)

/-- C8 counterexample: `ancestors` with its default
`include_background=False` removes the background id from the result, so for
`X = {0}` (the background alone) the result is empty and NOT a superset of
`X`. -/
theorem ancestors_background_not_superset :
    RegionMeta.ancestors rm2 [0] = some [] ∧
      ¬(∀ x ∈ ([0] : List Nat), x ∈ ([] : List Nat)) := by
  refine ⟨by decide, by decide⟩

/-- C8 (amended): for every nonempty set `X` of valid, non-background ids,
`ancestors(X)` succeeds and contains `X`; and for every leaf id,
`descendants({leaf})` is exactly `{leaf}`. -/
theorem ancestors_superset_descendants_leaf (rm : RegionMeta) (hwf : WF rm)
    (X : List Nat) (hne : X ≠ [])
    (hX : ∀ x ∈ X, rm.is_valid_id x = true ∧ x ≠ rm.background_id) :
    (∃ A, RegionMeta.ancestors rm X = some A ∧ ∀ x ∈ X, x ∈ A) ∧
      (∀ l, rm.is_leaf l = some true →
        RegionMeta.descendants rm [l] = some [l]) := by
  refine ⟨ancestors_mem_of_valid hwf hne hX, ?_⟩
  intro l hl
  have h1 : RegionMeta.descTree rm (RegionMeta.rmFuel rm) l = some [l] := by
    unfold RegionMeta.rmFuel
    exact descTree_leaf hl rm.depth
  simp [RegionMeta.descendants, optMap, h1]

/-- C8 witness: the amended claim evaluated on `rm2` with `X = {2}` and the
leaf `3`. -/
theorem ancestors_superset_descendants_leaf_witness :
    (∃ A, RegionMeta.ancestors rm2 [2] = some A ∧ ∀ x ∈ ([2] : List Nat), x ∈ A) ∧
      (∀ l, rm2.is_leaf l = some true →
        RegionMeta.descendants rm2 [l] = some [l]) :=
  ancestors_superset_descendants_leaf rm2 wf_rm2 [2] (by decide) (by decide)

/-! ## The filtered `descendants` helper
(`src/atlannot/atlas_merge/common.py`)

For each direct child: keep it if it is in `allowed_ids` or is a leaf, and
recurse into it unconditionally (the filter never prunes the traversal).
The region itself is never collected.  `rm.is_leaf(child_id)` never raises
here because children of valid regions are valid (`WF`); it is therefore
modelled by the total `leafb`. -/

def descendants (allowed_ids : List Nat) (rm : RegionMeta) :
    Nat → Nat → List Nat
  | 0, _ => []
  | fuel + 1, region_id =>
    ((rm.childrenD region_id).map
      (fun child_id =>
        (if child_id ∈ allowed_ids || rm.leafb child_id then [child_id]
         else []) ++ descendants allowed_ids rm fuel child_id)).flatten

/-- Strict descendant relation generated by the `children_ids` lists. -/
inductive IsDesc (rm : RegionMeta) : Nat → Nat → Prop
  | child {r c : Nat} : c ∈ rm.childrenD r → IsDesc rm r c
  | step {r c d : Nat} : c ∈ rm.childrenD r → IsDesc rm c d → IsDesc rm r d

theorem wf_child {rm : RegionMeta} (hwf : WF rm) {r c : Nat}
    (hr : rm.is_valid_id r = true) (hc : c ∈ rm.childrenD r) :
    rm.is_valid_id c = true ∧ rm.levelD c = rm.levelD r + 1 := by
  obtain ⟨-, -, -, -, -, -, -, -, hch, -⟩ := hwf
  exact hch r ((valid_iff_mem_keys rm r).mp hr) c hc

theorem isDesc_level {rm : RegionMeta} (hwf : WF rm) {r d : Nat}
    (hder : IsDesc rm r d) (hr : rm.is_valid_id r = true) :
    rm.is_valid_id d = true ∧ rm.levelD r < rm.levelD d := by
  induction hder with
  | child hc =>
    have := wf_child hwf hr hc
    exact ⟨this.1, by omega⟩
  | step hc _ ih =>
    have h1 := wf_child hwf hr hc
    have h2 := ih h1.1
    exact ⟨h2.1, by omega⟩

theorem mem_descendants_succ {rm : RegionMeta} {allowed : List Nat}
    {fuel r d : Nat} :
    d ∈ descendants allowed rm (fuel + 1) r ↔
      ∃ c ∈ rm.childrenD r,
        (d = c ∧ (c ∈ allowed ∨ rm.leafb c = true)) ∨
          d ∈ descendants allowed rm fuel c := by
  simp only [descendants, List.mem_flatten, List.mem_map]
  constructor
  · rintro ⟨l, ⟨c, hc, rfl⟩, hd⟩
    rcases List.mem_append.mp hd with h | h
    · refine ⟨c, hc, Or.inl ?_⟩
      by_cases hcond : (c ∈ allowed || rm.leafb c) = true
      · rw [if_pos hcond] at h
        simp only [List.mem_singleton] at h
        exact ⟨h, by simpa using hcond⟩
      · rw [if_neg hcond] at h
        cases h
    · exact ⟨c, hc, Or.inr h⟩
  · rintro ⟨c, hc, h | h⟩
    · obtain ⟨hdc, hcond⟩ := h
      refine ⟨_, ⟨c, hc, rfl⟩, List.mem_append.mpr (Or.inl ?_)⟩
      rw [if_pos (by simpa using hcond)]
      exact List.mem_singleton.mpr hdc
    · exact ⟨_, ⟨c, hc, rfl⟩, List.mem_append.mpr (Or.inr h)⟩

theorem descendants_sound {rm : RegionMeta} (hwf : WF rm)
    {allowed : List Nat} :
    ∀ fuel r, rm.is_valid_id r = true →
      ∀ d ∈ descendants allowed rm fuel r,
        IsDesc rm r d ∧ (d ∈ allowed ∨ rm.leafb d = true) := by
  intro fuel
  induction fuel with
  | zero => intro r _ d hd; cases hd
  | succ f ih =>
    intro r hr d hd
    rcases mem_descendants_succ.mp hd with ⟨c, hc, h | h⟩
    · obtain ⟨rfl, hcond⟩ := h
      exact ⟨IsDesc.child hc, hcond⟩
    · have hcv := (wf_child hwf hr hc).1
      obtain ⟨hder, hcond⟩ := ih c hcv d h
      exact ⟨IsDesc.step hc hder, hcond⟩

theorem descendants_complete {rm : RegionMeta} (hwf : WF rm)
    {allowed : List Nat} {r d : Nat} (hder : IsDesc rm r d)
    (hr : rm.is_valid_id r = true)
    (hcond : d ∈ allowed ∨ rm.leafb d = true) :
    ∀ fuel, rm.levelD d - rm.levelD r ≤ fuel →
      d ∈ descendants allowed rm fuel r := by
  induction hder with
  | @child r c hc =>
    intro fuel hfuel
    have hlev := (wf_child hwf hr hc).2
    obtain ⟨f, rfl⟩ : ∃ f, fuel = f + 1 := ⟨fuel - 1, by omega⟩
    exact mem_descendants_succ.mpr ⟨c, hc, Or.inl ⟨rfl, hcond⟩⟩
  | @step r c d hc hder ih =>
    intro fuel hfuel
    have hstep := wf_child hwf hr hc
    have hlev := (isDesc_level hwf hder hstep.1).2
    obtain ⟨f, rfl⟩ : ∃ f, fuel = f + 1 := ⟨fuel - 1, by omega⟩
    refine mem_descendants_succ.mpr ⟨c, hc, Or.inr ?_⟩
    exact ih hstep.1 hcond f (by omega)

/-- C10: for a valid region `r`, the filtered `descendants` helper collects
exactly the strict descendants of `r` that are in `allowed_ids` or are
leaves — the per-node filter never prunes a subtree (a qualifying descendant
is kept even when its intermediate ancestors are filtered out) — and `r`
itself is never in the result. -/
theorem descendants_characterisation (rm : RegionMeta) (hwf : WF rm)
    (r : Nat) (hr : rm.is_valid_id r = true) (allowed : List Nat) :
    (∀ d, d ∈ descendants allowed rm (RegionMeta.rmFuel rm) r ↔
        (IsDesc rm r d ∧ (d ∈ allowed ∨ rm.leafb d = true))) ∧
      r ∉ descendants allowed rm (RegionMeta.rmFuel rm) r := by
  have hchar : ∀ d, d ∈ descendants allowed rm (RegionMeta.rmFuel rm) r ↔
      (IsDesc rm r d ∧ (d ∈ allowed ∨ rm.leafb d = true)) := by
    intro d
    constructor
    · exact fun hd => descendants_sound hwf _ r hr d hd
    · rintro ⟨hder, hcond⟩
      have hd := isDesc_level hwf hder hr
      have hdep := wf_level_le hwf hd.1
      apply descendants_complete hwf hder hr hcond
      unfold RegionMeta.rmFuel
      omega
  refine ⟨hchar, ?_⟩
  intro hmem
  have := ((hchar r).mp hmem).1
  have := (isDesc_level hwf this hr).2
  omega

/-- C10 witness: on `rm2`, the allowed child `2` of the root `997` is a
filtered descendant, and the root itself is not. -/
theorem descendants_characterisation_witness :
    2 ∈ descendants [2] rm2 (RegionMeta.rmFuel rm2) 997 ∧
      997 ∉ descendants [2] rm2 (RegionMeta.rmFuel rm2) 997 :=
  ⟨((descendants_characterisation rm2 wf_rm2 997 (by decide) [2]).1 2).mpr
      ⟨IsDesc.child (by decide), Or.inl (by decide)⟩,
    (descendants_characterisation rm2 wf_rm2 997 (by decide) [2]).2⟩

/-! ## The coarse set-level reconciliation (`src/atlannot/merge/coarse.py`)

The pipeline computes the two remap tables `(v2_from, v2_to)`,
`(v3_from, v3_to)` from the unique ids of the two volumes.  Python `for`
loops over sets take their iteration order as an explicit list parameter
(Python set order is unspecified); loops whose body can raise run in the
`Option` monad via `optFoldl`. -/

/-- Fold with an effectful body; models a Python `for` loop that may raise. -/
def optFoldl {σ α : Type} (f : σ → α → Option σ) : σ → List α → Option σ
  | st, [] => some st
  | st, x :: xs => do
    let st' ← f st x
    optFoldl f st' xs

/-- Model of `rm.parent(id_) in some_set` — a `None` parent is never a member. -/
def memOpt (o : Option Nat) (l : List Nat) : Bool :=
  match o with
  | some p => decide (p ∈ l)
  | none => false

/-- Sources/targets of the `replace` calls of `manual_relabel` that touch
`ids_v2`, in source order. -/
def manualPairsV2 : List (Nat × Nat) :=
  [(60, 28), (999, 20), (715, 20), (764, 20), (92, 139), (312, 139),
   (468, 543), (508, 543), (712, 727),
   (195, 304), (524, 582), (606, 430), (747, 556),
   (96, 607), (101, 607), (112, 607), (560, 607),
   (143, 135), (939, 135),
   (188, 151), (196, 151), (204, 151),
   (798, 491),
   (955, 235), (963, 235),
   (123, 867), (860, 867), (868, 867), (875, 867), (883, 867), (891, 867),
   (899, 867), (915, 867)]

/-- Sources/targets of the `replace` calls of `manual_relabel` that touch
`ids_v3`, in source order. -/
def manualPairsV3 : List (Nat × Nat) :=
  [(96, 607), (101, 607),
   (143, 135), (939, 135),
   (188, 151), (196, 151), (204, 151),
   (798, 491), (606826647, 491), (606826651, 491), (606826655, 491),
   (606826659, 491),
   (496345664, 170), (496345668, 170), (496345672, 170),
   (955, 235), (963, 235),
   (312782550, 532), (312782604, 532), (312782554, 241), (312782608, 241),
   (312782558, 635), (312782612, 635), (312782562, 683), (312782616, 683),
   (312782566, 308), (312782620, 308), (312782570, 340), (312782624, 340),
   (123, 867)]

/-- Apply a sequence of `replace` calls in order. -/
def applyPairs (pairs : List (Nat × Nat)) (arr : List Nat) : List Nat :=
  pairs.foldl (fun a p => replace a p.1 p.2) arr

/-- Model of `manual_relabel(ids_v2, ids_v3)`.  The source interleaves the `replace`
calls on the two arrays; replaces on distinct arrays commute, so they are
grouped per array here, preserving the per-array order. -/
def manual_relabel (ids_v2 ids_v3 : List Nat) : List Nat × List Nat :=
  (applyPairs manualPairsV2 ids_v2, applyPairs manualPairsV3 ids_v3)

/-- The "Manual replacements #2" block of `merge`, which only touches
`v3_to`. -/
def manual2PairsV3 : List (Nat × Nat) :=
  [(484682470, 502), (527696977, 910), (355, 314)]

/-- Body of the "First loop" of `merge` for one id of
`unique_v2 - unique_v3`; the state is the pair `(v2_to, v3_to)`.
`rm.is_leaf` can raise on an unknown id (`none` aborts).  In the second
branch `rm.parent(rm.parent(id_))` can be `None`, which the Python code
would then feed to a numpy integer-array assignment — an error, modelled by
`none`. -/
def firstLoopBody (rm : RegionMeta) (unique_v3 : List Nat)
    (st : List Nat × List Nat) (id_ : Nat) : Option (List Nat × List Nat) := do
  let lf ← rm.is_leaf id_
  if lf && memOpt (rm.parent id_) unique_v3 then
    match rm.parent id_ with
    | some p => some (replace st.1 id_ p, st.2)
    | none => none
  else if lf && (rm.in_region_like ("Medial amygdalar nucleus") id_ ||
      rm.in_region_like ("Subiculum") id_ ||
      rm.in_region_like ("Bed nuclei of the stria terminalis") id_) then
    match (rm.parent id_).bind rm.parent with
    | some gp => some (replace st.1 id_ gp, st.2)
    | none => none
  else if rm.in_region_like ("Paraventricular hypothalamic nucleus") id_ then
    some (st.1, replace st.2 id_ 38)
  else
    some st

def firstLoop (rm : RegionMeta) (unique_v3 : List Nat) (order : List Nat)
    (st : List Nat × List Nat) : Option (List Nat × List Nat) :=
  optFoldl (firstLoopBody rm unique_v3) st order

/-- Body of the "Second loop" (cortical layers of the Visual areas) for one
id of `(unique_v2 | unique_v3) - {0}`. -/
def secondLoopBody (rm : RegionMeta) (st : List Nat × List Nat)
    (id_ : Nat) : List Nat × List Nat :=
  if !(rm.in_region_like ("Visual areas") id_) then st
  else if rm.in_region_like ("ayer 1") id_ then
    (replace st.1 id_ 801, replace st.2 id_ 801)
  else if rm.in_region_like ("ayer 2/3") id_ then
    (replace st.1 id_ 561, replace st.2 id_ 561)
  else if rm.in_region_like ("ayer 4") id_ then
    (replace st.1 id_ 913, replace st.2 id_ 913)
  else if rm.in_region_like ("ayer 5") id_ then
    (replace st.1 id_ 937, replace st.2 id_ 937)
  else if rm.in_region_like ("ayer 6a") id_ then
    (replace st.1 id_ 457, replace st.2 id_ 457)
  else if rm.in_region_like ("ayer 6b") id_ then
    (replace st.1 id_ 497, replace st.2 id_ 497)
  else st

def secondLoop (rm : RegionMeta) (order : List Nat)
    (st : List Nat × List Nat) : List Nat × List Nat :=
  order.foldl (secondLoopBody rm) st

/-- Body of the "Third loop" for one id of `unique_v3 - {0}`: two
independent `if`s (not `elif`).  `unique_v2` here is the set captured
before the first loop, exactly as in the source.  The `none => st` branch
is unreachable: the guard `memOpt … = true` forces the parent to exist. -/
def thirdLoopBody (rm : RegionMeta) (unique_v2 : List Nat)
    (st : List Nat × List Nat) (id_ : Nat) : List Nat × List Nat :=
  let st1 :=
    if (rm.in_region_like ("fiber tracts") id_ ||
        rm.in_region_like ("Interpeduncular nucleus") id_) &&
        !(decide (id_ ∈ unique_v2)) && memOpt (rm.parent id_) unique_v2 then
      match rm.parent id_ with
      | some p => (st.1, replace st.2 id_ p)
      | none => st
    else st
  if rm.in_region_like ("Frontal pole, cerebral cortex") id_ then
    (replace st1.1 id_ 184, replace st1.2 id_ 184)
  else st1

def thirdLoop (rm : RegionMeta) (unique_v2 : List Nat) (order : List Nat)
    (st : List Nat × List Nat) : List Nat × List Nat :=
  order.foldl (thirdLoopBody rm unique_v2) st

/-- Model of `unique_1 - unique_2 - {8, 997}`, as the sorted list of set elements. -/
def usetDiff (ids_1 ids_2 : List Nat) : List Nat :=
  (npUnique ids_1).filter (fun x => decide (x ∉ ids_2 ∧ x ≠ 8 ∧ x ≠ 997))

/-- The inner walk `while id__ not in allowed: id__ = rm.parent(id__)`.
When the parent chain runs out (`None`) before hitting `allowed`, the
Python loop spins forever on the `None` key; that divergence, like fuel
exhaustion, is `none`. -/
def walkUp (rm : RegionMeta) (allowed : List Nat) : Nat → Nat → Option Nat
  | 0, _ => none
  | fuel + 1, id_ =>
    if id_ ∈ allowed then some id_
    else
      match rm.parent id_ with
      | none => none
      | some p => walkUp rm allowed fuel p

/-- One iteration of the body of `while_correct`.  `set.pop()` removes an
arbitrary element; it is modelled as the least element (head of the sorted
difference) — every theorem below applies this to an empty or singleton
difference, where the choice is forced.  The `replace` calls iterate over
the `descendants` set; their order is irrelevant (distinct old values, one
common new value), so the traversal order of `descendants` is used.
Crucially, the walk tests membership in `allowed_cap` — the closure
`allowed_v2` captured from the enclosing scope — not in the `allowed_1` /
`allowed_2` parameters, exactly as in the source. -/
def whileStep (rm : RegionMeta)
    (ids_1 ids_2 allowed_1 allowed_2 allowed_cap : List Nat) :
    Option (List Nat × List Nat) :=
  match (usetDiff ids_1 ids_2).head? with
  | none => some (ids_1, ids_2)
  | some id0 => do
    let a ← walkUp rm allowed_cap (RegionMeta.rmFuel rm) id0
    let ids1b := (descendants allowed_1 rm (RegionMeta.rmFuel rm) a).foldl
      (fun l child => replace l child a) ids_1
    let ids2b := (descendants allowed_2 rm (RegionMeta.rmFuel rm) a).foldl
      (fun l child => replace l child a) ids_2
    some (ids1b, ids2b)

/-- The `while_correct` loop: while `unique_1 - unique_2 - {8, 997}` is
nonempty, pop an id, walk up to the captured closure, collapse the filtered
descendants of the found ancestor in both tables, and recompute.  The
source has no iteration cap; `none` models non-termination. -/
def while_correct (rm : RegionMeta) (fuel : Nat)
    (ids_1 ids_2 allowed_1 allowed_2 allowed_cap : List Nat) :
    Option (List Nat × List Nat) :=
  if usetDiff ids_1 ids_2 = [] then some (ids_1, ids_2)
  else
    match fuel with
    | 0 => none
    | f + 1 =>
      match whileStep rm ids_1 ids_2 allowed_1 allowed_2 allowed_cap with
      | none => none
      | some (j1, j2) =>
        while_correct rm f j1 j2 allowed_1 allowed_2 allowed_cap

/-- The table-building part of `merge` (everything except the final
`atlas_remap` application): returns `((v2_from, v2_to), (v3_from, v3_to))`.
`ord1`, `ord2`, `ord3` are the iteration orders of the three `for` loops
over sets; `wfuel` is the fuel of the two `while_correct` calls.  Note the
`while_correct` calls pass `allowed_v2` as the captured closure for BOTH
directions, as in the source. -/
def reconcileTables (rm : RegionMeta) (wfuel : Nat)
    (ord1 ord2 ord3 : List Nat) (ccfv2 ccfv3 : List Nat) :
    Option ((List Nat × List Nat) × (List Nat × List Nat)) := do
  let v2_from := npUnique ccfv2
  let v3_from := npUnique ccfv3
  let unique_v2 := v2_from
  let unique_v3 := v3_from
  let (v2a, v3a) ← firstLoop rm unique_v3 ord1 (v2_from, v3_from)
  let (v2b, v3b) := manual_relabel v2a v3a
  let (v2c, v3c) := secondLoop rm ord2 (v2b, v3b)
  let v3d := applyPairs manual2PairsV3 v3c
  let (v2e, v3e) := thirdLoop rm unique_v2 ord3 (v2c, v3d)
  let allowed_v2 ← RegionMeta.ancestors rm v2e
  let allowed_v3 ← RegionMeta.ancestors rm v3e
  let (v3f, v2f) ←
    while_correct rm wfuel v3e v2e allowed_v3 allowed_v2 allowed_v2
  let (v2g, v3g) ←
    while_correct rm wfuel v2f v3f allowed_v2 allowed_v3 allowed_v2
  some ((v2_from, v2g), (v3_from, v3g))

/-! ## Lemmas about the pipeline stages -/

theorem applyPairs_noop {pairs : List (Nat × Nat)} {arr : List Nat}
    (h : ∀ p ∈ pairs, p.1 ∉ arr) : applyPairs pairs arr = arr := by
  induction pairs with
  | nil => rfl
  | cons p t ih =>
    unfold applyPairs
    rw [List.foldl_cons]
    show applyPairs t (replace arr p.1 p.2) = arr
    rw [replace_of_not_mem (h p (List.mem_cons_self p t))]
    exact ih (fun q hq => h q (List.mem_cons_of_mem p hq))

theorem secondLoop_noop {rm : RegionMeta} {order : List Nat}
    (h : ∀ x ∈ order, rm.in_region_like ("Visual areas") x = false) :
    ∀ st, secondLoop rm order st = st := by
  induction order with
  | nil => intro st; rfl
  | cons x t ih =>
    intro st
    unfold secondLoop
    rw [List.foldl_cons]
    have hbody : secondLoopBody rm st x = st := by
      unfold secondLoopBody
      rw [h x (List.mem_cons_self x t)]
      rfl
    rw [hbody]
    exact ih (fun y hy => h y (List.mem_cons_of_mem x hy)) st

theorem thirdLoop_noop {rm : RegionMeta} {uv2 order : List Nat}
    (h : ∀ x ∈ order, x ∈ uv2 ∧
      rm.in_region_like ("Frontal pole, cerebral cortex") x = false) :
    ∀ st, thirdLoop rm uv2 order st = st := by
  induction order with
  | nil => intro st; rfl
  | cons x t ih =>
    intro st
    unfold thirdLoop
    rw [List.foldl_cons]
    have hx := h x (List.mem_cons_self x t)
    have hbody : thirdLoopBody rm uv2 st x = st := by
      unfold thirdLoopBody
      simp [hx.1, hx.2]
    rw [hbody]
    exact ih (fun y hy => h y (List.mem_cons_of_mem x hy)) st

theorem usetDiff_subset_nil {i1 i2 : List Nat} (h : ∀ x ∈ i1, x ∈ i2) :
    usetDiff i1 i2 = [] := by
  unfold usetDiff
  rw [List.filter_eq_nil_iff]
  intro a ha
  have := h a (mem_npUnique.mp ha)
  simp [this]

theorem while_correct_done {rm : RegionMeta} {fuel : Nat}
    {i1 i2 a1 a2 cap : List Nat} (h : usetDiff i1 i2 = []) :
    while_correct rm fuel i1 i2 a1 a2 cap = some (i1, i2) := by
  rw [while_correct.eq_def, if_pos h]

theorem while_correct_stuck {rm : RegionMeta} {i1 i2 a1 a2 cap : List Nat}
    (hne : usetDiff i1 i2 ≠ [])
    (hstep : whileStep rm i1 i2 a1 a2 cap = some (i1, i2)) :
    ∀ fuel, while_correct rm fuel i1 i2 a1 a2 cap = none := by
  intro fuel
  induction fuel with
  | zero => rw [while_correct.eq_def, if_neg hne]
  | succ f ih => rw [while_correct.eq_def, if_neg hne, hstep]; exact ih

theorem ancestors_isSome {rm : RegionMeta} (hwf : WF rm) {ids : List Nat}
    (hx : ∃ x ∈ ids, rm.is_valid_id x = true) :
    ∃ A, RegionMeta.ancestors rm ids = some A := by
  obtain ⟨x, hxm, hv⟩ := hx
  have hbg : rm.background_id ∈
      ((ids.map (RegionMeta.chainUp rm (RegionMeta.rmFuel rm))).flatten).dedup := by
    rw [List.mem_dedup]
    apply List.mem_flatten.mpr
    exact ⟨RegionMeta.chainUp rm (RegionMeta.rmFuel rm) x,
      List.mem_map_of_mem _ hxm,
      bg_mem_chainUp hwf _ x hv (Nat.lt_succ_of_le (wf_level_le hwf hv))⟩
  refine ⟨(((ids.map (RegionMeta.chainUp rm (RegionMeta.rmFuel rm))).flatten).dedup).filter
      (· ≠ rm.background_id), ?_⟩
  unfold RegionMeta.ancestors
  simp only [hbg, if_pos]

/-! ## C1, C2, C9: the `while_correct` loop on a concrete failing input

With the hierarchy `rm2` (`0 → 997 → {2, 3}`), the volumes
`ccfv2 = [2, 3]` and `ccfv3 = [3]` pass unchanged through the rule stages
and reach the while-loop stage with `U_A = {2, 3}`, `U_B = {3}`,
`allowed_v2 = closure(U_A) = {2, 3, 997}` and
`allowed_v3 = closure(U_B) = {3, 997}`.  The first direction is a no-op.
In the second direction ("A collapses toward B") the loop pops `2` and
walks its ancestor chain — but against the captured `allowed_v2`, not the
target closure `allowed_v3`; since `2 ∈ allowed_v2`, the walk stops at `2`
itself, the leaf `2` has no descendants, the body changes nothing, and the
loop never terminates. -/

/-- C1: on the failing input, the ancestor walk of the second
(`A` collapses toward `B`) direction tests membership in the captured
`allowed_v2` and stops at the popped id `2` — an id outside the
ancestor-closure `{3, 997}` of `U_B` — so the step collapses nothing;
the walk the claim describes would stop at `997 ∈ closure(U_B)`. -/
theorem while_walk_uses_captured_closure :
    RegionMeta.ancestors rm2 [2, 3] = some [2, 3, 997] ∧
      RegionMeta.ancestors rm2 [3] = some [3, 997] ∧
      usetDiff [2, 3] [3] = [2] ∧
      walkUp rm2 [2, 3, 997] (RegionMeta.rmFuel rm2) 2 = some 2 ∧
      2 ∉ ([3, 997] : List Nat) ∧
      whileStep rm2 [2, 3] [3] [2, 3, 997] [3, 997] [2, 3, 997] =
        some ([2, 3], [3]) ∧
      walkUp rm2 [3, 997] (RegionMeta.rmFuel rm2) 2 = some 997 := by
  refine ⟨by decide, by decide, by decide, by decide, by decide, by decide,
    by decide⟩

/-- C2: the reconciliation has no defensive iteration cap — on the failing
input it neither empties the set difference nor reports an error: for every
fuel the loop just keeps running (the pipeline returns `none`, i.e. it
diverges silently). -/
theorem reconcile_never_converges_no_cap (wfuel : Nat) :
    reconcileTables rm2 wfuel [2] [2, 3] [3] [2, 3] [3] = none := by
  have hu2 : npUnique [2, 3] = [2, 3] := by decide
  have hu3 : npUnique [3] = [3] := by decide
  have hfl : firstLoop rm2 [3] [2] ([2, 3], [3]) = some ([2, 3], [3]) := by
    decide
  have hmr : manual_relabel [2, 3] [3] = ([2, 3], [3]) := by decide
  have hsl : secondLoop rm2 [2, 3] ([2, 3], [3]) = ([2, 3], [3]) := by decide
  have hm2 : applyPairs manual2PairsV3 [3] = [3] := by decide
  have htl : thirdLoop rm2 [2, 3] [3] ([2, 3], [3]) = ([2, 3], [3]) := by
    decide
  have ha2 : RegionMeta.ancestors rm2 [2, 3] = some [2, 3, 997] := by decide
  have ha3 : RegionMeta.ancestors rm2 [3] = some [3, 997] := by decide
  have hw1 : while_correct rm2 wfuel [3] [2, 3] [3, 997] [2, 3, 997]
      [2, 3, 997] = some ([3], [2, 3]) := while_correct_done (by decide)
  have hw2 : while_correct rm2 wfuel [2, 3] [3] [2, 3, 997] [3, 997]
      [2, 3, 997] = none :=
    while_correct_stuck (by decide) (by decide) wfuel
  simp only [reconcileTables, hu2, hu3, hfl, hmr, hsl, hm2, htl, ha2, ha3,
    hw1, hw2, Option.bind_eq_bind, Option.some_bind, Option.none_bind]

/-- C9: on the failing input the second direction of the loop does not
terminate within `depth(hierarchy) = 2` iterations — it does not terminate
at all: every extra fuel beyond the depth still yields divergence. -/
theorem while_loop_exceeds_depth_bound :
    rm2.depth = 2 ∧
      ∀ k, while_correct rm2 (rm2.depth + k) [2, 3] [3] [2, 3, 997]
        [3, 997] [2, 3, 997] = none := by
  refine ⟨by decide, ?_⟩
  intro k
  exact while_correct_stuck (by decide) (by decide) _

/-! ## C4: the fixed-point property of the set-level reconciliation -/

/-- A hierarchy `0 → 997 → {96, 607}` whose leaf ids `96` and `607` are a
source/target pair of the manual override table (`96 → 607` for the
Cochlear-nuclei rule). -/
def rmC4 : RegionMeta :=
  { background_id := 0,
    parent_id := [(0, none), (997, some 0), (96, some 997), (607, some 997)],
    children_ids := [(0, [997]), (997, [96, 607]), (96, []), (607, [])],
    name_ := [(0, "background"), (997, "root"), (96, "a"), (607, "b")],
    level := [(0, 0), (997, 1), (96, 2), (607, 2)] }

/-- C4 counterexample: two volumes with identical, ancestor-closed unique id
sets `{0, 96, 607, 997}` — already reconciled in the claim's sense — for
which the pipeline does NOT return identity tables: the manual override
`96 → 607` of `manual_relabel` fires regardless, so both tables map
`96 ↦ 607`.  (The conjuncts also record that the iteration orders used are
exactly the sets the loops iterate over.) -/
theorem reconcile_not_identity_on_manual_override :
    npUnique [0, 96, 607, 997] = npUnique [0, 96, 607, 997] ∧
      (∀ x ∈ (RegionMeta.ancestors rmC4 (npUnique [0, 96, 607, 997])).getD [],
        x ∈ npUnique [0, 96, 607, 997]) ∧
      usetDiff [0, 96, 607, 997] [0, 96, 607, 997] = [] ∧
      (npUnique ([0, 96, 607, 997] ++ [0, 96, 607, 997])).filter
        (fun x => decide (x ≠ 0)) = [96, 607, 997] ∧
      (npUnique [0, 96, 607, 997]).filter (fun x => decide (x ≠ 0)) =
        [96, 607, 997] ∧
      reconcileTables rmC4 1 [] [96, 607, 997] [96, 607, 997]
        [0, 96, 607, 997] [0, 96, 607, 997] =
        some (([0, 96, 607, 997], [0, 607, 607, 997]),
          ([0, 96, 607, 997], [0, 607, 607, 997])) ∧
      ([0, 607, 607, 997] : List Nat) ≠ [0, 96, 607, 997] := by
  refine ⟨by decide, by decide, by decide, by decide, by decide, by decide,
    by decide⟩

/-- C4 (amended): the reconciliation is a fixed point on equal,
ancestor-closed id sets PROVIDED additionally that the sets contain no
source id of the manual override tables and no id matching the
"Visual areas" or "Frontal pole, cerebral cortex" name rules (the rules the
pipeline applies regardless of set membership); then no pipeline step
changes any id and both remap tables come back as identity. -/
theorem reconcile_fixed_point (rm : RegionMeta) (hwf : WF rm)
    (ccfv2 ccfv3 : List Nat) (wfuel : Nat) (ord2 ord3 : List Nat)
    (hU : npUnique ccfv2 = npUnique ccfv3)
    (hne : npUnique ccfv2 ≠ [])
    (hvalid : ∀ x ∈ npUnique ccfv2, rm.is_valid_id x = true)
    (_hclosed : ∀ x ∈ (RegionMeta.ancestors rm (npUnique ccfv2)).getD [],
      x ∈ npUnique ccfv2)
    (hman : ∀ p ∈ manualPairsV2 ++ manualPairsV3 ++ manual2PairsV3,
      p.1 ∉ npUnique ccfv2)
    (hvis : ∀ x ∈ ord2, rm.in_region_like ("Visual areas") x = false)
    (hord3 : ∀ x ∈ ord3, x ∈ npUnique ccfv2 ∧
      rm.in_region_like ("Frontal pole, cerebral cortex") x = false) :
    reconcileTables rm wfuel [] ord2 ord3 ccfv2 ccfv3 =
      some ((npUnique ccfv2, npUnique ccfv2),
        (npUnique ccfv3, npUnique ccfv3)) := by
  have hu3 : npUnique ccfv3 = npUnique ccfv2 := hU.symm
  have hmr : manual_relabel (npUnique ccfv2) (npUnique ccfv2) =
      (npUnique ccfv2, npUnique ccfv2) := by
    unfold manual_relabel
    rw [applyPairs_noop (fun p hp => hman p (by simp [hp])),
      applyPairs_noop (fun p hp => hman p (by simp [hp]))]
  have hsl : secondLoop rm ord2 (npUnique ccfv2, npUnique ccfv2) =
      (npUnique ccfv2, npUnique ccfv2) := secondLoop_noop hvis _
  have hm2 : applyPairs manual2PairsV3 (npUnique ccfv2) = npUnique ccfv2 :=
    applyPairs_noop (fun p hp => hman p (by simp [hp]))
  have htl : thirdLoop rm (npUnique ccfv2) ord3
      (npUnique ccfv2, npUnique ccfv2) = (npUnique ccfv2, npUnique ccfv2) :=
    thirdLoop_noop hord3 _
  obtain ⟨x0, X', hX⟩ := List.exists_cons_of_ne_nil hne
  obtain ⟨A, hA⟩ := @ancestors_isSome rm hwf (npUnique ccfv2)
    ⟨x0, by rw [hX]; exact List.mem_cons_self x0 X',
      hvalid x0 (by rw [hX]; exact List.mem_cons_self x0 X')⟩
  have hdiff : usetDiff (npUnique ccfv2) (npUnique ccfv2) = [] :=
    usetDiff_subset_nil (fun x hx => hx)
  have hwc : ∀ a1 a2 cap, while_correct rm wfuel (npUnique ccfv2)
      (npUnique ccfv2) a1 a2 cap =
      some (npUnique ccfv2, npUnique ccfv2) :=
    fun a1 a2 cap => while_correct_done hdiff
  simp [reconcileTables, firstLoop, optFoldl, hu3, hmr, hsl, hm2, htl, hA,
    hwc]

/-- C4 witness: the amended fixed-point theorem applied to the concrete
hierarchy `rm2` and identical ancestor-closed volumes `[0, 2, 3, 997]`. -/
theorem reconcile_fixed_point_witness :
    reconcileTables rm2 7 [] [2, 3, 997] [2, 3, 997]
      [0, 2, 3, 997] [0, 2, 3, 997] =
      some ((npUnique [0, 2, 3, 997], npUnique [0, 2, 3, 997]),
        (npUnique [0, 2, 3, 997], npUnique [0, 2, 3, 997])) :=
  reconcile_fixed_point rm2 wf_rm2 [0, 2, 3, 997] [0, 2, 3, 997] 7
    [2, 3, 997] [2, 3, 997] (by decide) (by decide) (by decide) (by decide)
    (by decide) (by decide) (by decide)

/-! ## The voxel edge correction (`src/atlannot/merge/fine.py`)

`explore_voxel` is a breadth-first search over the 6-connected grid inside
a masked volume; `correct_edge` runs it from every voxel holding the seed
id.  The volume is a total function on integer triples together with a
shape; a masked read (`read`) yields `none` for voxels whose value is
hidden.  The snapshot semantics of the source is preserved: all searches
read the original volume, and the results are written afterwards. -/

/-- The fixed neighbour order of `explore_voxel`. -/
def deltas : List (Int × Int × Int) :=
  [(-1, 0, 0), (0, -1, 0), (1, 0, 0), (0, 1, 0), (0, 0, -1), (0, 0, 1)]

/-- Model of `in_bounds(pos)`: componentwise `0 <= x < x_max`. -/
def in_bounds (shape pos : Int × Int × Int) : Bool :=
  decide (0 ≤ pos.1 ∧ pos.1 < shape.1) &&
    decide (0 ≤ pos.2.1 ∧ pos.2.1 < shape.2.1) &&
    decide (0 ≤ pos.2.2 ∧ pos.2.2 < shape.2.2)

/-- The `while len(queue) > 0 and count != 0` loop of `explore_voxel`.
`read` is the masked volume (`none` = `ma.masked`); a comparison against a
masked value is falsy, so the search stops only on an unmasked value
different from the (unmasked) start value, and returns it.  The state is
(queue, seen, count); `fuel` only models divergence and never runs out on a
finite grid (each iteration pops one queue entry and only enqueues
never-seen positions). -/
def exploreLoop (shape : Int × Int × Int) (read : Int × Int × Int → Option Nat)
    (start_value : Option Nat) :
    Nat → List (Int × Int × Int) → List (Int × Int × Int) → Int → Option Nat
  | 0, _, _, _ => start_value
  | fuel + 1, queue, seen, count =>
    match queue with
    | [] => start_value
    | pos :: rest =>
      if count = 0 then start_value
      else if (match read pos, start_value with
          | some v, some sv => decide (v ≠ sv)
          | _, _ => false) then read pos
      else
        let sq := deltas.foldl
          (fun (acc : List (Int × Int × Int) × List (Int × Int × Int)) d =>
            let new_pos := (pos.1 + d.1, pos.2.1 + d.2.1, pos.2.2 + d.2.2)
            if in_bounds shape new_pos && !(decide (new_pos ∈ acc.1)) then
              (acc.1 ++ [new_pos], acc.2 ++ [new_pos])
            else acc)
          (seen, rest)
        exploreLoop shape read start_value fuel sq.2 sq.1 (count - 1)

/-- Model of `explore_voxel(start_pos, masked_atlas, count)`. -/
def explore_voxel (shape : Int × Int × Int)
    (read : Int × Int × Int → Option Nat) (start_pos : Int × Int × Int)
    (count : Int) (fuel : Nat) : Option Nat :=
  exploreLoop shape read (read start_pos) fuel [start_pos] [start_pos] count

/-- Model of `keep_ids = [region_id, *descendants(region_id, allowed, rm)]` of
`correct_edge`. -/
def keep_ids (rm : RegionMeta) (region_id : Nat) (allowed : List Nat) :
    List Nat :=
  region_id :: descendants allowed rm (RegionMeta.rmFuel rm) region_id

/-- The masked view `ma.masked_array(atlas, hide_mask)` of `correct_edge`:
voxels whose value is outside `keep_ids` read as masked (`none`). -/
def maskedRead (rm : RegionMeta) (region_id : Nat) (allowed : List Nat)
    (atlas : Int × Int × Int → Nat) : Int × Int × Int → Option Nat :=
  fun p =>
    if decide (atlas p ∈ keep_ids rm region_id allowed) then some (atlas p)
    else none

/-- Model of `correct_edge(region_id, atlas, count)` as a function on volumes: every
voxel equal to `region_id` is replaced by the result of its search over the
masked snapshot; all searches read the unmodified snapshot and the results
are written afterwards, as in the source.  The `getD` default is
unreachable: the start voxel holds `region_id ∈ keep_ids`, so its masked
read — the search's fallback result — is `some region_id`. -/
def correct_edge (rm : RegionMeta) (region_id : Nat) (allowed : List Nat)
    (shape : Int × Int × Int) (atlas : Int × Int × Int → Nat) (count : Int)
    (fuel : Nat) : Int × Int × Int → Nat :=
  fun p =>
    if in_bounds shape p && decide (atlas p = region_id) then
      (explore_voxel shape (maskedRead rm region_id allowed atlas) p count
        fuel).getD (atlas p)
    else atlas p

theorem exploreLoop_result {shape : Int × Int × Int}
    {read : Int × Int × Int → Option Nat} {sv : Nat} :
    ∀ {fuel : Nat} {queue seen : List (Int × Int × Int)} {count : Int}
      {w : Nat},
      exploreLoop shape read (some sv) fuel queue seen count = some w →
      w = sv ∨ (∃ q, read q = some w ∧ w ≠ sv) := by
  intro fuel
  induction fuel with
  | zero =>
    intro queue seen count w h
    simp only [exploreLoop, Option.some.injEq] at h
    exact Or.inl h.symm
  | succ f ih =>
    intro queue seen count w h
    match queue with
    | [] =>
      simp only [exploreLoop, Option.some.injEq] at h
      exact Or.inl h.symm
    | pos :: rest =>
      simp only [exploreLoop] at h
      by_cases hc : count = 0
      · rw [if_pos hc] at h
        exact Or.inl (Option.some.inj h).symm
      · rw [if_neg hc] at h
        cases hr : read pos with
        | none =>
          rw [hr] at h
          rw [if_neg (by simp)] at h
          exact ih h
        | some v =>
          rw [hr] at h
          by_cases hv : v = sv
          · subst hv
            rw [if_neg (by simp)] at h
            exact ih h
          · rw [if_pos (by simp [hv])] at h
            have hvw : v = w := Option.some.inj h
            exact Or.inr ⟨pos, by rw [hr, hvw], by rw [← hvw]; exact hv⟩

theorem exploreLoop_ne_none {shape : Int × Int × Int}
    {read : Int × Int × Int → Option Nat} {sv : Nat} :
    ∀ {fuel : Nat} {queue seen : List (Int × Int × Int)} {count : Int},
      exploreLoop shape read (some sv) fuel queue seen count ≠ none := by
  intro fuel
  induction fuel with
  | zero =>
    intro queue seen count h
    simp [exploreLoop] at h
  | succ f ih =>
    intro queue seen count h
    match queue with
    | [] => simp [exploreLoop] at h
    | pos :: rest =>
      simp only [exploreLoop] at h
      by_cases hc : count = 0
      · rw [if_pos hc] at h; cases h
      · rw [if_neg hc] at h
        cases hr : read pos with
        | none =>
          rw [hr] at h
          rw [if_neg (by simp)] at h
          exact ih h
        | some v =>
          rw [hr] at h
          by_cases hv : v = sv
          · subst hv
            rw [if_neg (by simp)] at h
            exact ih h
          · rw [if_pos (by simp [hv])] at h
            cases h

/-- C5: the keep-mask safety of the voxel edge correction — a voxel whose
value was not the seed id is never modified; a voxel holding the seed id
either keeps it or receives a value from
`keep = {seed} ∪ filtered_descendants(seed, allowed)` different from the
seed. -/
theorem correct_edge_keep_safety (rm : RegionMeta) (region_id : Nat)
    (allowed : List Nat) (shape : Int × Int × Int)
    (atlas : Int × Int × Int → Nat) (count : Int) (fuel : Nat)
    (p : Int × Int × Int) :
    (atlas p ≠ region_id →
      correct_edge rm region_id allowed shape atlas count fuel p = atlas p) ∧
    (atlas p = region_id →
      correct_edge rm region_id allowed shape atlas count fuel p = region_id ∨
        (correct_edge rm region_id allowed shape atlas count fuel p ∈
            keep_ids rm region_id allowed ∧
          correct_edge rm region_id allowed shape atlas count fuel p ≠
            region_id)) := by
  constructor
  · intro hne
    unfold correct_edge
    rw [if_neg (by simp [hne])]
  · intro heq
    by_cases hb : in_bounds shape p = true
    · have hrp : maskedRead rm region_id allowed atlas p = some region_id := by
        unfold maskedRead
        rw [heq, if_pos (by simp [keep_ids])]
      have hexp : ∃ w,
          explore_voxel shape (maskedRead rm region_id allowed atlas) p count
            fuel = some w := by
        unfold explore_voxel
        rw [hrp]
        cases hres : exploreLoop shape (maskedRead rm region_id allowed atlas)
            (some region_id) fuel [p] [p] count with
        | none => exact absurd hres exploreLoop_ne_none
        | some w => exact ⟨w, rfl⟩
      obtain ⟨w, hw⟩ := hexp
      have hval : correct_edge rm region_id allowed shape atlas count fuel p
          = w := by
        unfold correct_edge
        rw [if_pos (by simp [hb, heq]), hw]
        rfl
      have hcases : w = region_id ∨
          (∃ q, maskedRead rm region_id allowed atlas q = some w ∧
            w ≠ region_id) := by
        apply exploreLoop_result
        unfold explore_voxel at hw
        rw [hrp] at hw
        exact hw
      rcases hcases with rfl | ⟨q, hq, hwne⟩
      · exact Or.inl hval
      · refine Or.inr ⟨?_, by rw [hval]; exact hwne⟩
        rw [hval]
        unfold maskedRead at hq
        by_cases hmem : atlas q ∈ keep_ids rm region_id allowed
        · rw [if_pos (by simpa using hmem)] at hq
          rw [← Option.some.inj hq]
          exact hmem
        · rw [if_neg (by simpa using hmem)] at hq
          cases hq
    · have hunch : correct_edge rm region_id allowed shape atlas count fuel p
          = atlas p := by
        unfold correct_edge
        rw [if_neg (by simp [hb])]
      exact Or.inl (hunch.trans heq)

/-- A concrete 2×1×1 test volume: the seed voxel `(0,0,0)` holds `997`, its
neighbour holds the allowed descendant `2`. -/
def volW : Int × Int × Int → Nat :=
  fun p => if p = (0, 0, 0) then 997 else if p = (1, 0, 0) then 2 else 5

/-- C5 witness: the keep-mask safety evaluated on `rm2` and `volW` — the
non-seed voxel `(1,0,0)` is untouched, and the corrected seed voxel
`(0,0,0)` keeps the seed or lands in `keep` away from the seed. -/
theorem correct_edge_keep_safety_witness :
    correct_edge rm2 997 [2] (2, 1, 1) volW (-1) 10 (1, 0, 0) =
        volW (1, 0, 0) ∧
      (correct_edge rm2 997 [2] (2, 1, 1) volW (-1) 10 (0, 0, 0) = 997 ∨
        (correct_edge rm2 997 [2] (2, 1, 1) volW (-1) 10 (0, 0, 0) ∈
            keep_ids rm2 997 [2] ∧
          correct_edge rm2 997 [2] (2, 1, 1) volW (-1) 10 (0, 0, 0) ≠ 997)) :=
  ⟨(correct_edge_keep_safety rm2 997 [2] (2, 1, 1) volW (-1) 10
      (1, 0, 0)).1 (by decide),
    (correct_edge_keep_safety rm2 997 [2] (2, 1, 1) volW (-1) 10
      (0, 0, 0)).2 (by decide)⟩

end Atlannot
